import Mathlib

/-!
Shallow embedding of the royalty-settlement engine in
src/revenue2report_o1pro.py, together with proofs about the claims of
its specification.

Numeric cells are modelled with rationals: every amount handled by the
claims is exact decimal arithmetic (sums, min, a division by 100), so ℚ
mirrors the computations without introducing rounding of its own.
A Python exception that escapes a function is modelled as Option.none.
-/

namespace RevenueReport

/-! ### Small string helpers (Python building blocks) -/

/-- Value of an ASCII digit character. -/
def digitVal (c : Char) : ℕ := c.toNat - 48

/-- Decimal value of a digit list (most significant first). -/
def decimalVal (ds : List Char) : ℕ := ds.foldl (fun a c => 10 * a + digitVal c) 0

/-- Does the character list start with the given needle? -/
def isPrefixB : List Char → List Char → Bool
  | [], _ => true
  | _ :: _, [] => false
  | a :: as, b :: bs => a == b && isPrefixB as bs

/-- Does the haystack contain the needle as a contiguous run?
Models the Python substring test (the `in` operator on strings). -/
def isInfixB (needle : List Char) : List Char → Bool
  | [] => isPrefixB needle []
  | c :: t => isPrefixB needle (c :: t) || isInfixB needle t

/-- Python `needle in hay` for strings. -/
def containsStr (hay needle : String) : Bool := isInfixB needle.data hay.data

/-- Python `s.isdigit()`, restricted to the ASCII digits that appear in the
data handled here: non-empty and all characters are digits. -/
def pyIsDigit (s : String) : Bool := !s.data.isEmpty && s.data.all Char.isDigit

/-- Python `s.replace(c, "")`: remove every occurrence of one character. -/
def stripAllChar (c : Char) (s : String) : String := ⟨s.data.filter (fun x => x ≠ c)⟩

/-- Python `s.upper()` on the ASCII letters present in the data. -/
def pyUpper (s : String) : String := ⟨s.data.map Char.toUpper⟩

/-- Python `s.lower()` on the ASCII letters present in the data. -/
def pyLower (s : String) : String := ⟨s.data.map Char.toLower⟩

/-- ASCII whitespace, the fragment of Python whitespace exercised here. -/
def isWS (c : Char) : Bool := c == ' ' || c == '\t' || c == '\n' || c == '\r'

/-- Python `s.strip()` (ASCII-whitespace fragment). -/
def pyStripStr (s : String) : String :=
  ⟨((s.data.dropWhile isWS).reverse.dropWhile isWS).reverse⟩

/-- Split a character list at every separator character, keeping empty
pieces, like `re.split` with a character class. -/
def splitOnPred (p : Char → Bool) : List Char → List (List Char)
  | [] => [[]]
  | c :: t =>
    let r := splitOnPred p t
    if p c then [] :: r
    else
      match r with
      | [] => [[c]]
      | h :: t2 => (c :: h) :: t2

/-- String wrapper for `splitOnPred`. -/
def pySplit (p : Char → Bool) (s : String) : List String :=
  (splitOnPred p s.data).map (fun cs => ⟨cs⟩)

/-- Fragment of Python `float(str)` used by the engine: optional sign,
decimal digits with at most one point (`"12"`, `"-3.5"`, `".5"`, `"7."`).
Exponents, underscores, inf/nan and surrounding whitespace are outside the
fragment exercised here.  `none` models a `ValueError`. -/
def parseUnsignedQ? (cs : List Char) : Option ℚ :=
  let ip := cs.takeWhile Char.isDigit
  let rest := cs.dropWhile Char.isDigit
  match rest with
  | [] => if ip.isEmpty then none else some (decimalVal ip : ℚ)
  | '.' :: fp =>
    if ip.isEmpty && fp.isEmpty then none
    else if fp.all Char.isDigit then
      let den : ℕ := 10 ^ fp.length
      some (mkRat (Int.ofNat (decimalVal ip * den + decimalVal fp)) den)
    else none
  | _ => none

/-- Signed version of `parseUnsignedQ?`; models `float(...)` with `none`
for the raised `ValueError`. -/
def parseFloatQ? (s : String) : Option ℚ :=
  match s.data with
  | '+' :: rest => parseUnsignedQ? rest
  | '-' :: rest => (parseUnsignedQ? rest).map (fun q => -q)
  | cs => parseUnsignedQ? cs

/-- The inline numeric readers of the engine:
`try: float(x.replace(",", "")) except: 0.0` — thousands separators are
removed, any failure (empty cell included) is silently recovered as 0.0. -/
def parseCell (s : String) : ℚ := (parseFloatQ? (stripAllChar ',' s)).getD 0

/-- `to_num` of `generate_report` (src line 1332):
`if not x: return 0.0; return float(x.replace("%", "").replace(",", ""))`.
There is no try/except around it, so a non-empty unparsable cell raises,
modelled by `none`. -/
def to_num (x : String) : Option ℚ :=
  if x = "" then some 0
  else parseFloatQ? (stripAllChar ',' (stripAllChar '%' x))

/-! ### Unicode model for the artist-name normalizer

`clean_artist_name` calls `unicodedata.normalize('NFKC', ...)` and the
Unicode general-category classifier.  Both are modelled on the fragment of
characters this development manipulates; the table entries below follow
UnicodeData.txt:
* U+0000..U+001F, U+007F are category Cc; U+00AD, U+200B..U+200F
  (including U+200D ZERO WIDTH JOINER) are category Cf;
* U+0020, U+00A0, U+2000..U+200A, U+3000 are category Zs, U+2028 is Zl,
  U+2029 is Zp;
* NFKC maps the compatibility spaces U+00A0, U+2000..U+200A, U+3000 to
  U+0020 and canonically composes U+0041 U+0300 to U+00C0;
* letters, digits and Hangul syllables used in the theorems are NFKC-stable
  and belong to none of the categories above. -/

/-- Is the character of Unicode general category C (control/format)? -/
def isCatC (c : Char) : Bool :=
  c.val < 0x20 || c.val == 0x7F || c.val == 0xAD ||
    (0x200B ≤ c.val && c.val ≤ 0x200F)

/-- Is the character of Unicode general category Z (separator)? -/
def isCatZ (c : Char) : Bool :=
  c == ' ' || c.val == 0xA0 || c.val == 0x3000 ||
    (0x2000 ≤ c.val && c.val ≤ 0x200A) || c.val == 0x2028 || c.val == 0x2029

/-- NFKC compatibility mapping on the modelled fragment: the compatibility
space characters decompose to an ordinary space; everything else is stable. -/
def nfkcCompat (c : Char) : Char :=
  if c.val == 0x3000 || c.val == 0xA0 || (0x2000 ≤ c.val && c.val ≤ 0x200A) then ' '
  else c

/-- Canonical composition table on the modelled fragment:
U+0041 (A) followed by U+0300 (combining grave) composes to U+00C0 (À). -/
def composePair (a b : Char) : Option Char :=
  if a == 'A' && b.val == 0x300 then some (Char.ofNat 0xC0) else none

/-- One right-fold step of canonical composition: an adjacent composable
pair is replaced by its composition.  A category-C character sitting
between a base letter and a combining mark keeps them non-adjacent, which
models the blocking behaviour of normalization. -/
def composeStep (a : Char) (acc : List Char) : List Char :=
  match acc with
  | [] => [a]
  | b :: t =>
    match composePair a b with
    | some c => c :: t
    | none => a :: b :: t

/-- NFKC normalization on the modelled fragment: compatibility mapping
followed by canonical composition of adjacent pairs. -/
def nfkcModel (l : List Char) : List Char := (l.map nfkcCompat).foldr composeStep []

/-- Drop trailing spaces. -/
def dropTrail (l : List Char) : List Char := (l.reverse.dropWhile (fun c => c == ' ')).reverse

/-- Python `str.strip()` at the point it is applied inside
`clean_artist_name`: by then every separator has been replaced by U+0020
and every control character removed, so only ordinary spaces remain to be
stripped. -/
def pyStrip (l : List Char) : List Char := dropTrail (l.dropWhile (fun c => c == ' '))

/-- `clean_artist_name` (src lines 66..101):
1) NFKC-normalize, 2) drop every category-C character, 3) replace every
category-Z character by a space, 4) replace U+00A0 and U+3000 by a space,
5) strip. -/
def cleanChars (l : List Char) : List Char :=
  if l.isEmpty then []
  else
    pyStrip ((((nfkcModel l).filter (fun c => !isCatC c)).map
        (fun c => if isCatZ c then ' ' else c)).map
      (fun c => if c.val == 0xA0 || c.val == 0x3000 then ' ' else c))

/-- String wrapper for `clean_artist_name`. -/
def clean_artist_name (s : String) : String := ⟨cleanChars s.data⟩

/-- `is_summary_row` (src lines 434..444): blank or, uppercased, one of
the reserved aggregate markers. -/
def is_summary_row (s : String) : Bool :=
  if s = "" then true
  else
    let up := pyUpper s
    up = "합계" || up = "총계" || up = "TOTAL"

/-! ### Deduction pipeline (`section_zero_prepare_song_cost`, src 451..939)

A revenue input row carries the artist cell and the amount cell of the
columns the code reads; a ledger row carries the affiliation, artist and
current-accrual cells. -/

/-- One revenue data row (artist column, amount column). -/
structure RevRow where
  artist : String
  amount : String
deriving DecidableEq

/-- One current-month ledger row as read by `section_zero` (소속,
아티스트명, 당월 발생액 cells). -/
structure CostRow where
  sosok : String
  artist : String
  curr : String
deriving DecidableEq

/-- The pre-filter applied to every revenue source before summation
(src 575..583, 633..639, 688..694): drop rows whose cleaned artist is a
summary marker. -/
def szPrefilter (rows : List RevRow) : List RevRow :=
  rows.filter (fun r => !is_summary_row (clean_artist_name r.artist))

/-- The in-loop skip condition of the UMAG summation loop (src 598..608):
blank, or containing a reserved marker, or all digits. -/
def sumLoopSkip (a : String) : Bool :=
  a = "" || containsStr a "합계" || containsStr a "총계" ||
    containsStr (pyLower a) "total" || pyIsDigit a

/-- `sum_umag_dict` (src 592..614): per-artist UMAG revenue total.  The
skip condition is evaluated on the current row's own cleaned artist. -/
def sum_umag_dict (rows : List RevRow) (a : String) : ℚ :=
  (szPrefilter rows).foldl
    (fun acc r =>
      let aU := clean_artist_name r.artist
      if sumLoopSkip aU then acc
      else if aU = a then acc + parseCell r.amount
      else acc) 0

/-- The value held by the loop variable of the UMAG summation loop after
that loop finishes: the cleaned artist of the last pre-filtered UMAG row
(undefined — `none` — when there is none, in which case the Python code
raises NameError further down). -/
def lastUmagArtist (rows : List RevRow) : Option String :=
  ((szPrefilter rows).map (fun r => clean_artist_name r.artist)).getLast?

/-- `sum_flux_song_dict` (src 648..669): per-artist fluxus_song revenue
total.  The loop body tests the stale variable of the UMAG loop (`aU`
below) instead of the current row's artist — when that stale value
trips the skip condition every row is skipped, otherwise none is. -/
def sum_flux_song_dict (rows : List RevRow) (aU : String) (a : String) : ℚ :=
  (szPrefilter rows).foldl
    (fun acc r =>
      let aFS := clean_artist_name r.artist
      if sumLoopSkip aU then acc
      else if aFS = a then acc + parseCell r.amount
      else acc) 0

/-- `sum_flux_yt_dict` (src 703..724), with the same stale skip test. -/
def sum_flux_yt_dict (rows : List RevRow) (aU : String) (a : String) : ℚ :=
  (szPrefilter rows).foldl
    (fun acc r =>
      let aFY := clean_artist_name r.artist
      if sumLoopSkip aU then acc
      else if aFY = a then acc + parseCell r.amount
      else acc) 0

/-- `prev_remain_dict` (src 524..533): map each cleaned artist of the
previous-month tab to its parsed 당월 잔액, skipping blank/marker rows;
a later row with the same artist overwrites an earlier one; missing
artists give 0 (`dict.get(artist, 0.0)`). -/
def prevRemainDict (rows : List (String × String)) : String → ℚ :=
  rows.foldl
    (fun f r =>
      let ap := clean_artist_name r.1
      if ap = "" ∨ ap = "합계" ∨ ap = "총계" then f
      else fun x => if x = ap then parseCell r.2 else f x)
    (fun _ => 0)

/-- The affiliation tokens of a ledger row (src 737..739):
`re.split(r'[,&/]', sosok.strip().upper())`, each token stripped, empty
tokens dropped. -/
def affilsOf (sosok : String) : List String :=
  ((pySplit (fun c => c == ',' || c == '&' || c == '/') (pyUpper (pyStripStr sosok))).map
      pyStripStr).filter (fun x => x ≠ "")

/-- Revenue summed over every affiliation token of a row (src 750..760):
UMAG adds the UMAG total, FLUXUS adds song + yt, unknown tokens add
nothing. -/
def szTotalRevenue (sumU sumFS sumFY : String → ℚ) (r : CostRow) : ℚ :=
  let artist := clean_artist_name r.artist
  (affilsOf r.sosok).foldl
    (fun acc s =>
      if s = "UMAG" then acc + sumU artist
      else if s = "FLUXUS" then acc + (sumFS artist + sumFY artist)
      else acc) 0

/-- One iteration of the deduction loop (src 731..765): `none` models the
`["","",""]` placeholder appended for blank/marker artist rows; otherwise
the written triple (전월 잔액, 당월 발생액, 당월 차감액) is
`(prev, curr, min totalRevenue (prev + curr))`. -/
def deductionRow (prevRemain sumU sumFS sumFY : String → ℚ) (r : CostRow) :
    Option (ℚ × ℚ × ℚ) :=
  let artist := clean_artist_name r.artist
  if artist = "" ∨ artist = "합계" ∨ artist = "총계" then none
  else
    let currVal := parseCell r.curr
    let prevVal := prevRemain artist
    let totalRevenue := szTotalRevenue sumU sumFS sumFY r
    let canDeduct := prevVal + currVal
    let actualDeduct := min totalRevenue canDeduct
    some (prevVal, currVal, actualDeduct)

/-! ### Reconciliation (src 816..889) -/

/-- Cost-file artists carrying a given affiliation tag
(src 816..831): the artist sets used to classify revenue rows. -/
def artistsWithAffil (rows : List CostRow) (tag : String) : List String :=
  rows.foldl
    (fun acc r => if tag ∈ affilsOf r.sosok then acc ++ [clean_artist_name r.artist] else acc)
    []

/-- One reported unmatched row (src 846..851): row index, raw artist
text, normalized key and reason. -/
structure MissRow where
  rowIdx : ℕ
  rawArtist : String
  cleanedArtist : String
  reason : String
deriving DecidableEq

/-- The missing-row scan of one source (src 838..851): each data row is
either counted as processed (cleaned artist belongs to the cost-file set)
or appended to the missing list. -/
def missingScanAux (S : List String) (reason : String) : ℕ → List RevRow → ℕ × List MissRow
  | _, [] => (0, [])
  | i, r :: rs =>
    let rest := missingScanAux S reason (i + 1) rs
    if clean_artist_name r.artist ∈ S then (rest.1 + 1, rest.2)
    else (rest.1, ⟨i, r.artist, clean_artist_name r.artist, reason⟩ :: rest.2)

/-- The scan started at row index 0. -/
def missingScan (S : List String) (reason : String) (rows : List RevRow) : ℕ × List MissRow :=
  missingScanAux S reason 0 rows

/-! ### Report generation (`generate_report`, src 1275..4818)

Only the aggregation and settlement arithmetic is embedded; the
rendering/formatting calls carry no business computation. -/

/-- A revenue row as read by the aggregation loops of `generate_report`
(artist cell and amount cell of the columns used). -/
structure GrRow where
  artist : String
  amount : String
deriving DecidableEq

/-- The running fluxus_song revenue total `sum_fs_rv_val`
(src 1464..1482): rows are skipped only when the stripped artist cell is
empty; there is no summary-marker filter on this path. -/
def gr_flux_song_total (rows : List GrRow) : ℚ :=
  rows.foldl
    (fun acc r =>
      let a := pyStripStr r.artist
      if a = "" then acc else acc + parseCell r.amount) 0

/-- Per-artist data of the settlement loop of `generate_report`
(src 1628..4794): affiliations from `artist_sosok_dict`, parsed cost
fields from `artist_cost_dict`, and the artist's revenue line amounts per
physical source. -/
structure RepEntry where
  artist : String
  affils : List String
  deduct : ℚ
  remain : ℚ
  rate : ℚ
  umagRevenues : List ℚ
  fsRevenues : List ℚ
  fyRevenues : List ℚ
deriving DecidableEq

/-- One produced settlement (정산서) tab: the branch that produced it,
the final settlement amount written in section 4, and the post-deduction
amount (공제 적용 금액) displayed in section 3. -/
structure BranchResult where
  source : String
  artist : String
  finalAmount : ℚ
  postDeduct : ℚ
deriving DecidableEq

/-- The settlement computations of the per-artist loop of
`generate_report`.  State: the variable `sum_2` assigned in the UMAG
branch (src 1876) and read, stale, by the FLUXUS branch (src 3496); it is
unbound — the run raises NameError, modelled `none` — when a FLUXUS branch
executes before any UMAG branch.
UMAG branch (src 1871..1893): `sum_2` is the artist's UMAG revenue total,
`final = (sum_2 - deduct) * rate / 100`, and section 3 displays
`sum_2 - deduct` (src 1998).
FLUXUS branch (src 3471..3497): `fluxus_sum_all` is the artist's yt + song
revenue total and section 3 displays `fluxus_sum_all - deduct`
(src 3607), but `final = (sum_2 - deduct) * rate / 100` uses the stale
UMAG `sum_2` (src 3496). -/
def runReportsAux (entries : List RepEntry) (sum2 : Option ℚ) :
    Option (List BranchResult) :=
  match entries with
  | [] => some []
  | e :: rest =>
    let step := e.affils.foldl
      (fun (st : Option (Option ℚ × List BranchResult)) one_sosok =>
        match st with
        | none => none
        | some (s2, acc) =>
          if one_sosok = "UMAG" then
            let sum_2 := e.umagRevenues.foldl (· + ·) 0
            let final := (sum_2 - e.deduct) * (e.rate / 100)
            some (some sum_2, acc ++ [⟨"UMAG", e.artist, final, sum_2 - e.deduct⟩])
          else if one_sosok = "FLUXUS" then
            match s2 with
            | none => none
            | some s2v =>
              let fluxus_sum_all :=
                e.fyRevenues.foldl (· + ·) 0 + e.fsRevenues.foldl (· + ·) 0
              let final := (s2v - e.deduct) * (e.rate / 100)
              some (some s2v, acc ++ [⟨"FLUXUS", e.artist, final, fluxus_sum_all - e.deduct⟩])
          else some (s2, acc))
      (some (sum2, []))
    match step with
    | none => none
    | some (s2, acc) =>
      match runReportsAux rest s2 with
      | none => none
      | some tail => some (acc ++ tail)

/-- The settlement loop started with `sum_2` unbound. -/
def runReports (entries : List RepEntry) : Option (List BranchResult) :=
  runReportsAux entries none

/-! ### Month rollover (`update_next_month_tab`, src 345..431)

The worksheet grid is a list of rows of cell strings; the duplicated
next-month tab starts as an exact copy.  A written cell becomes a
`Cell.num` (the batch update writes the float `old_val` into column F and
the value 0 into column G, rows 2..1+len(content)); every untouched cell
keeps its original string. -/

/-- A cell after the rollover write: the original string or a written
number. -/
inductive Cell where
  | str (s : String)
  | num (q : ℚ)
deriving DecidableEq

/-- First index of a column title in the header row (`list.index`, whose
ValueError is an early return — `none`). -/
def findIdxName (header : List String) (name : String) : Option ℕ :=
  header.findIdx? (fun h => h = name)

/-- One iteration of the `prev_month_dict` build loop (src 367..375):
skip blank/합계/총계 artists, otherwise bind the stripped artist to its
parsed 당월 잔액 (overwriting any earlier binding). -/
def rollStep (ia ir : ℕ) (f : String → ℚ) (row : List String) : String → ℚ :=
  let a := pyStripStr (row.getD ia "")
  if a = "" ∨ a = "합계" ∨ a = "총계" then f
  else fun x => if x = a then parseCell (row.getD ir "") else f x

/-- `prev_month_dict` (src 366..375) as a total lookup:
the parsed 당월 잔액 of the last matching row; 0 for absent artists
(`dict.get(artist, 0.0)`). -/
def rolloverPrevDict (body : List (List String)) (ia ir : ℕ) : String → ℚ :=
  body.foldl (rollStep ia ir) (fun _ => 0)

/-- Does this previous-month row bind the artist `x`: a non-summary row
whose stripped artist cell equals `x`. -/
def rollMatch (ia : ℕ) (x : String) (row : List String) : Bool :=
  let a := pyStripStr (row.getD ia "")
  if a = "" ∨ a = "합계" ∨ a = "총계" then false else decide (a = x)

/-- `update_next_month_tab` on the grid of the period-P tab.  Early
returns (empty tab, missing columns) give `none`.  The new tab is the
duplicate of the old one, then one batch update writes, for every content
row (all body rows except the trailing aggregate row), column F (index 5)
:= the artist's previous-month 당월 잔액 and column G (index 6) := 0.
The write ranges are hard-coded (src 416, 420) even though the code also
looks the 전월 잔액 / 당월 차감액 columns up by name. -/
def update_next_month_tab (data : List (List String)) : Option (List (List Cell)) :=
  match data with
  | [] => none
  | header :: body =>
    match findIdxName header "아티스트명", findIdxName header "당월 잔액" with
    | some ia, some ir =>
      match findIdxName header "아티스트명", findIdxName header "전월 잔액",
          findIdxName header "당월 차감액" with
      | some ia2, some _, some _ =>
        let prevD := rolloverPrevDict body ia ir
        let n := body.dropLast.length
        some ((header :: body).mapIdx (fun ri row =>
          row.mapIdx (fun ci cell =>
            if 1 ≤ ri ∧ ri ≤ n ∧ ci = 5 then
              Cell.num (prevD (pyStripStr (row.getD ia2 "")))
            else if 1 ≤ ri ∧ ri ≤ n ∧ ci = 6 then Cell.num 0
            else Cell.str cell)))
      | _, _, _ => none
    | _, _ => none

/-! ### Worksheet duplication (`duplicate_worksheet_with_new_name`,
src 313..331) -/

/-- Decimal digit to character, for rendering a numeral the way the
Python f-string renders `idx`. -/
def decDigitChar (d : ℕ) : Char :=
  match d with
  | 0 => '0'
  | 1 => '1'
  | 2 => '2'
  | 3 => '3'
  | 4 => '4'
  | 5 => '5'
  | 6 => '6'
  | 7 => '7'
  | 8 => '8'
  | 9 => '9'
  | _ => ' '

/-- Digits of a natural number, most significant first, with fuel. -/
def decAux : ℕ → ℕ → List ℕ
  | 0, _ => []
  | fuel + 1, n => if n < 10 then [n] else decAux fuel (n / 10) ++ [n % 10]

/-- Digits of a natural number, most significant first. -/
def natDec (n : ℕ) : List ℕ := decAux (n + 1) n

/-- Python `str(n)` for a natural number. -/
def natDecStr (n : ℕ) : String := ⟨(natDec n).map decDigitChar⟩

/-- The candidate title `f"{base_name} ({idx})"`. -/
def candTitle (base : String) (k : ℕ) : String :=
  base ++ " (" ++ natDecStr k ++ ")"

/-- The retry loop of `duplicate_worksheet_with_new_name` (src 324..328):
starting at index `k`, take the first candidate absent from the existing
titles.  The fuel argument bounds the iterations; `duplicate_new_name`
passes enough fuel for the loop to always find a free candidate. -/
def freshAux (titles : List String) (base : String) : ℕ → ℕ → String
  | 0, k => candTitle base k
  | fuel + 1, k =>
    if candTitle base k ∈ titles then freshAux titles base fuel (k + 1)
    else candTitle base k

/-- The title finally given to the duplicated sheet: the requested title
itself when free, otherwise the first `"base (k)"`, `k = 2, 3, ...`,
absent from the pre-existing titles. -/
def duplicate_new_name (titles : List String) (base : String) : String :=
  if base ∈ titles then freshAux titles base (titles.length + 1) 2 else base

/-! ### Concrete worksheet fixtures used by the rollover theorems

Layout A places the columns the way `section_zero` writes them
(src 771: range E:G holds 전월 잔액 / 당월 발생액 / 당월 차감액, so
전월 잔액 is column index 4); layout B places 전월 잔액 at column F
(index 5) and 당월 차감액 at column G (index 6), the way the hard-coded
write ranges of `update_next_month_tab` (src 416, 420) and its comments
assume. -/

def rolloverHeaderA : List String :=
  ["순번", "소속", "아티스트명", "정산 요율", "전월 잔액", "당월 발생액", "당월 차감액", "당월 잔액"]

def rolloverRowX : List String := ["1", "UMAG", "X", "50", "30", "7", "5", "100"]

def rolloverTotalRow : List String := ["", "", "합계", "", "", "", "", ""]

def rolloverDataA : List (List String) := [rolloverHeaderA, rolloverRowX, rolloverTotalRow]

def rolloverHeaderB : List String :=
  ["순번", "소속", "아티스트명", "정산 요율", "당월 발생액", "전월 잔액", "당월 차감액", "당월 잔액"]

def rolloverRowY : List String := ["1", "UMAG", "Y", "50", "7", "30", "5", "100"]

def rolloverDataB : List (List String) := [rolloverHeaderB, rolloverRowY, rolloverTotalRow]

/-- The grid produced by the rollover on `rolloverDataB`. -/
def rolloverOutB : List (List Cell) :=
  (update_next_month_tab rolloverDataB).get (by decide)

/-! ### Supporting lemmas -/

theorem szPrefilter_append (l₁ l₂ : List RevRow) :
    szPrefilter (l₁ ++ l₂) = szPrefilter l₁ ++ szPrefilter l₂ := by
  simp [szPrefilter, List.filter_append]

theorem szPrefilter_cons_summary (r : RevRow) (l : List RevRow)
    (h : is_summary_row (clean_artist_name r.artist) = true) :
    szPrefilter (r :: l) = szPrefilter l := by
  simp [szPrefilter, List.filter_cons, h]

theorem missingScanAux_spec (S : List String) (reason : String) (rows : List RevRow) :
    ∀ i : ℕ,
      (missingScanAux S reason i rows).1 + (missingScanAux S reason i rows).2.length
          = rows.length
      ∧ ∀ m ∈ (missingScanAux S reason i rows).2,
          m.cleanedArtist = clean_artist_name m.rawArtist ∧ m.reason = reason := by
  induction rows with
  | nil => intro i; simp [missingScanAux]
  | cons r rs ih =>
    intro i
    have h := ih (i + 1)
    by_cases hm : clean_artist_name r.artist ∈ S
    · constructor
      · simp only [missingScanAux, if_pos hm, List.length_cons]
        omega
      · intro m hmem
        simp only [missingScanAux, if_pos hm] at hmem
        exact h.2 m hmem
    · constructor
      · simp only [missingScanAux, if_neg hm, List.length_cons]
        omega
      · intro m hmem
        simp only [missingScanAux, if_neg hm, List.mem_cons] at hmem
        rcases hmem with rfl | hmem
        · exact ⟨rfl, rfl⟩
        · exact h.2 m hmem

/-- Value of a digit list, most significant first. -/
def digitsVal (ds : List ℕ) : ℕ := ds.foldl (fun a d => 10 * a + d) 0

theorem digitsVal_append_digit (xs : List ℕ) (d : ℕ) :
    digitsVal (xs ++ [d]) = 10 * digitsVal xs + d := by
  simp [digitsVal, List.foldl_append]

theorem decAux_lt_ten (fuel : ℕ) : ∀ (n : ℕ), ∀ d ∈ decAux fuel n, d < 10 := by
  induction fuel with
  | zero => intro n d hd; simp [decAux] at hd
  | succ f ih =>
    intro n d hd
    rw [decAux] at hd
    split at hd
    · next hlt => simp at hd; omega
    · next hge =>
      rw [List.mem_append] at hd
      rcases hd with h | h
      · exact ih _ d h
      · simp at h; omega

theorem digitsVal_decAux (fuel : ℕ) : ∀ (n : ℕ), n < fuel → digitsVal (decAux fuel n) = n := by
  induction fuel with
  | zero => intro n h; omega
  | succ f ih =>
    intro n h
    rw [decAux]
    split
    · simp [digitsVal]
    · next hge =>
      have h10 : 10 ≤ n := by omega
      rw [digitsVal_append_digit, ih (n / 10) (by omega)]
      omega

theorem natDecStr_data_inj (a b : ℕ)
    (h : (natDec a).map decDigitChar = (natDec b).map decDigitChar) : a = b := by
  have hlt : ∀ x < 10, ∀ y < 10, decDigitChar x = decDigitChar y → x = y := by decide
  have hmap : ∀ xs ys : List ℕ, (∀ x ∈ xs, x < 10) → (∀ y ∈ ys, y < 10) →
      xs.map decDigitChar = ys.map decDigitChar → xs = ys := by
    intro xs
    induction xs with
    | nil =>
      intro ys _ _ hxy
      cases ys with
      | nil => rfl
      | cons y t => simp at hxy
    | cons x xt ih =>
      intro ys hx hy hxy
      cases ys with
      | nil => simp at hxy
      | cons y yt =>
        simp only [List.map_cons, List.cons.injEq] at hxy
        have hxy0 := hlt x (hx x (by simp)) y (hy y (by simp)) hxy.1
        subst hxy0
        rw [ih yt (fun z hz => hx z (by simp [hz])) (fun z hz => hy z (by simp [hz])) hxy.2]
  have heq : natDec a = natDec b :=
    hmap _ _ (decAux_lt_ten _ a) (decAux_lt_ten _ b) h
  have va : digitsVal (natDec a) = a := digitsVal_decAux (a + 1) a (Nat.lt_succ_self a)
  have vb : digitsVal (natDec b) = b := digitsVal_decAux (b + 1) b (Nat.lt_succ_self b)
  rw [← va, ← vb, heq]

theorem candTitle_inj (base : String) (k₁ k₂ : ℕ)
    (h : candTitle base k₁ = candTitle base k₂) : k₁ = k₂ := by
  apply natDecStr_data_inj
  have hd := congrArg String.data h
  simp only [candTitle, String.data_append, List.append_assoc] at hd
  have h1 := List.append_cancel_left hd
  have h2 := List.append_cancel_left h1
  exact List.append_cancel_right h2

theorem exists_fresh_title (titles : List String) (base : String) (k : ℕ) :
    ∃ j, j < titles.length + 1 ∧ candTitle base (k + j) ∉ titles := by
  by_contra hc
  push_neg at hc
  have hinj : Function.Injective fun j : ℕ => candTitle base (k + j) := by
    intro a b hab
    have := candTitle_inj base (k + a) (k + b) hab
    omega
  have hsub : (Finset.range (titles.length + 1)).image (fun j => candTitle base (k + j))
      ⊆ titles.toFinset := by
    intro x hx
    rw [Finset.mem_image] at hx
    obtain ⟨j, hj, rfl⟩ := hx
    rw [List.mem_toFinset]
    exact hc j (Finset.mem_range.mp hj)
  have hcard := Finset.card_le_card hsub
  rw [Finset.card_image_of_injective _ hinj, Finset.card_range] at hcard
  have := titles.toFinset_card_le
  omega

theorem freshAux_not_mem (titles : List String) (base : String) :
    ∀ fuel k, (∃ j, j < fuel ∧ candTitle base (k + j) ∉ titles) →
      freshAux titles base fuel k ∉ titles := by
  intro fuel
  induction fuel with
  | zero =>
    rintro k ⟨j, hj, _⟩
    omega
  | succ f ih =>
    rintro k ⟨j, hj, hfree⟩
    rw [freshAux]
    split
    · next hmem =>
      apply ih (k + 1)
      cases j with
      | zero => rw [Nat.add_zero] at hfree; exact absurd hmem hfree
      | succ j0 =>
        refine ⟨j0, by omega, ?_⟩
        have harith : k + 1 + j0 = k + (j0 + 1) := by omega
        rw [harith]
        exact hfree
    · next hmem => exact hmem

theorem freshAux_shape (titles : List String) (base : String) :
    ∀ fuel k, ∃ j, freshAux titles base fuel k = candTitle base (k + j) := by
  intro fuel
  induction fuel with
  | zero =>
    intro k
    exact ⟨0, by rw [Nat.add_zero, freshAux]⟩
  | succ f ih =>
    intro k
    rw [freshAux]
    split
    · obtain ⟨j, hj⟩ := ih (k + 1)
      refine ⟨j + 1, ?_⟩
      have harith : k + 1 + j = k + (j + 1) := by omega
      rw [hj, harith]
    · exact ⟨0, by rw [Nat.add_zero]⟩

theorem map_id_of {α : Type} (f : α → α) :
    ∀ l : List α, (∀ a ∈ l, f a = a) → l.map f = l := by
  intro l
  induction l with
  | nil => intro; rfl
  | cons a t ih =>
    intro h
    rw [List.map_cons, h a (by simp), ih (fun b hb => h b (by simp [hb]))]

theorem dropWhile_idem {α : Type} (p : α → Bool) (l : List α) :
    (l.dropWhile p).dropWhile p = l.dropWhile p := by
  induction l with
  | nil => rfl
  | cons a t ih =>
    rw [List.dropWhile_cons]
    split
    · exact ih
    · next hpa => rw [List.dropWhile_cons, if_neg hpa]

theorem dropWhile_eq_self_of_prefix {α : Type} (p : α → Bool) (m t : List α)
    (hm : m.dropWhile p = m) (ht : t <+: m) : t.dropWhile p = t := by
  cases t with
  | nil => rfl
  | cons a t2 =>
    obtain ⟨r, hr⟩ := ht
    have hpa : p a = false := by
      by_contra hpa
      rw [Bool.not_eq_false] at hpa
      rw [← hr, List.cons_append, List.dropWhile_cons, if_pos hpa] at hm
      have hlen := congrArg List.length hm
      have hle := (List.dropWhile_sublist (l := t2 ++ r) p).length_le
      simp only [List.length_cons] at hlen
      omega
    rw [List.dropWhile_cons, if_neg (by simp [hpa])]

theorem dropTrail_pre (l : List Char) : dropTrail l <+: l := by
  refine ⟨(l.reverse.takeWhile (fun c => c == ' ')).reverse, ?_⟩
  rw [dropTrail, ← List.reverse_append, List.takeWhile_append_dropWhile, List.reverse_reverse]

theorem dropTrail_idem (l : List Char) : dropTrail (dropTrail l) = dropTrail l := by
  show ((((l.reverse.dropWhile (fun c => c == ' ')).reverse).reverse.dropWhile
      (fun c => c == ' ')).reverse) = dropTrail l
  rw [List.reverse_reverse, dropWhile_idem]
  rfl

theorem pyStrip_idem (l : List Char) : pyStrip (pyStrip l) = pyStrip l := by
  have hm := dropWhile_idem (fun c : Char => c == ' ') l
  have hpref := dropTrail_pre (l.dropWhile (fun c => c == ' '))
  have h1 := dropWhile_eq_self_of_prefix (fun c : Char => c == ' ')
    (l.dropWhile (fun c => c == ' ')) (dropTrail (l.dropWhile (fun c => c == ' '))) hm hpref
  show dropTrail ((dropTrail (l.dropWhile (fun c => c == ' '))).dropWhile
      (fun c => c == ' ')) = pyStrip l
  rw [h1, dropTrail_idem]
  rfl

theorem pyStrip_subset (l : List Char) : ∀ ch ∈ pyStrip l, ch ∈ l := by
  intro ch hch
  rw [pyStrip, dropTrail, List.mem_reverse] at hch
  have h1 := (List.dropWhile_sublist (l := (l.dropWhile (fun c => c == ' ')).reverse)
    (fun c => c == ' ')).subset hch
  rw [List.mem_reverse] at h1
  exact (List.dropWhile_sublist (l := l) (fun c => c == ' ')).subset h1

theorem cleanChars_pyStrip_fixed (l : List Char) : pyStrip (cleanChars l) = cleanChars l := by
  rw [cleanChars]
  split
  · rfl
  · exact pyStrip_idem _

theorem cleanChars_mem (l : List Char) :
    ∀ ch ∈ cleanChars l, isCatC ch = false ∧ (isCatZ ch = true → ch = ' ') := by
  intro ch hch
  rw [cleanChars] at hch
  split at hch
  · simp at hch
  · have h1 := pyStrip_subset _ ch hch
    rw [List.mem_map] at h1
    obtain ⟨y, hy, hych⟩ := h1
    rw [List.mem_map] at hy
    obtain ⟨z, hz, hzy⟩ := hy
    have hzC := List.of_mem_filter hz
    by_cases hZ : isCatZ z = true
    · rw [if_pos hZ] at hzy
      rw [← hzy] at hych
      have hch2 : ch = ' ' := by
        rcases em ((' ' : Char).val == 0xA0 || (' ' : Char).val == 0x3000) with hA | hA
        · rw [if_pos hA] at hych; exact hych.symm
        · rw [if_neg hA] at hych; exact hych.symm
      rw [hch2]
      exact ⟨by decide, fun _ => rfl⟩
    · rw [if_neg hZ] at hzy
      rw [← hzy] at hych
      by_cases hA : (z.val == 0xA0 || z.val == 0x3000) = true
      · rw [if_pos hA] at hych
        rw [← hych]
        exact ⟨by decide, fun _ => rfl⟩
      · rw [if_neg hA] at hych
        rw [← hych]
        constructor
        · simpa using hzC
        · intro hZ2
          exact absurd hZ2 hZ

theorem rollStep_no_match {ia ir : ℕ} {x : String} {row : List String}
    (h : rollMatch ia x row = false) (f : String → ℚ) :
    rollStep ia ir f row x = f x := by
  simp only [rollMatch] at h
  simp only [rollStep]
  by_cases hs : pyStripStr (row.getD ia "") = "" ∨ pyStripStr (row.getD ia "") = "합계"
      ∨ pyStripStr (row.getD ia "") = "총계"
  · rw [if_pos hs]
  · rw [if_neg hs] at h
    rw [if_neg hs]
    have hne : pyStripStr (row.getD ia "") ≠ x := by simpa using h
    show (if x = pyStripStr (row.getD ia "") then parseCell (row.getD ir "") else f x) = f x
    exact if_neg (fun hx => hne hx.symm)

theorem rollStep_match {ia ir : ℕ} {x : String} {row : List String}
    (h : rollMatch ia x row = true) (f : String → ℚ) :
    rollStep ia ir f row x = parseCell (row.getD ir "") := by
  simp only [rollMatch] at h
  simp only [rollStep]
  by_cases hs : pyStripStr (row.getD ia "") = "" ∨ pyStripStr (row.getD ia "") = "합계"
      ∨ pyStripStr (row.getD ia "") = "총계"
  · rw [if_pos hs] at h
    exact absurd h (by simp)
  · rw [if_neg hs] at h
    have hax : pyStripStr (row.getD ia "") = x := by simpa using h
    rw [if_neg hs]
    show (if x = pyStripStr (row.getD ia "") then parseCell (row.getD ir "") else f x)
      = parseCell (row.getD ir "")
    exact if_pos hax.symm

theorem rolloverFold_absent (ia ir : ℕ) (x : String) :
    ∀ (rows : List (List String)) (f : String → ℚ),
      (∀ row ∈ rows, rollMatch ia x row = false) →
      rows.foldl (rollStep ia ir) f x = f x := by
  intro rows
  induction rows with
  | nil => intro f _; rfl
  | cons r t ih =>
    intro f hall
    rw [List.foldl_cons, ih (rollStep ia ir f r) (fun row hr => hall row (by simp [hr]))]
    exact rollStep_no_match (hall r (by simp)) f

theorem rolloverPrevDict_absent (body : List (List String)) (ia ir : ℕ) (x : String)
    (h : ∀ row ∈ body, rollMatch ia x row = false) :
    rolloverPrevDict body ia ir x = 0 :=
  rolloverFold_absent ia ir x body _ h

theorem rolloverPrevDict_last_match (ia ir : ℕ) (x : String)
    (pre post : List (List String)) (row₀ : List String)
    (hm : rollMatch ia x row₀ = true)
    (hpost : ∀ row ∈ post, rollMatch ia x row = false) :
    rolloverPrevDict (pre ++ row₀ :: post) ia ir x = parseCell (row₀.getD ir "") := by
  rw [rolloverPrevDict, List.foldl_append, List.foldl_cons,
    rolloverFold_absent ia ir x post _ hpost]
  exact rollStep_match hm _

theorem update_next_month_tab_spec
    (header : List String) (body : List (List String)) (g : List (List Cell)) (ia ir : ℕ)
    (hia : findIdxName header "아티스트명" = some ia)
    (hir : findIdxName header "당월 잔액" = some ir)
    (hip : ∃ ip, findIdxName header "전월 잔액" = some ip)
    (hid : ∃ idd, findIdxName header "당월 차감액" = some idd)
    (hrun : update_next_month_tab (header :: body) = some g) :
    g = (header :: body).mapIdx (fun ri row =>
      row.mapIdx (fun ci cell =>
        if 1 ≤ ri ∧ ri ≤ body.dropLast.length ∧ ci = 5 then
          Cell.num (rolloverPrevDict body ia ir (pyStripStr (row.getD ia "")))
        else if 1 ≤ ri ∧ ri ≤ body.dropLast.length ∧ ci = 6 then Cell.num 0
        else Cell.str cell)) := by
  obtain ⟨ip, hip⟩ := hip
  obtain ⟨idd, hid⟩ := hid
  simp only [update_next_month_tab, hia, hir, hip, hid, Option.some.injEq] at hrun
  exact hrun.symm

theorem mapIdx_congr {α β : Type} (f h : ℕ → α → β) (l : List α)
    (hfh : ∀ i a, f i a = h i a) : l.mapIdx f = l.mapIdx h := by
  apply List.ext_getElem?
  intro i
  simp only [List.getElem?_mapIdx]
  cases l[i]? with
  | none => rfl
  | some a => simp [hfh]

/-! ### Claim theorems -/

/-- C1, counterexample.  A ledger row whose affiliation field
`"UMAG,FLUXUS"` splits into two tokens is not excluded from automatic
deduction: with prior balance 50 and UMAG revenue 100 the computed
deduction is 50, not 0 or blank. -/
theorem C1_counterexample :
    (affilsOf "UMAG,FLUXUS").length > 1
    ∧ deductionRow (prevRemainDict [("X", "50")]) (sum_umag_dict [⟨"X", "100"⟩])
        (sum_flux_song_dict [] "X") (sum_flux_yt_dict [] "X") ⟨"UMAG,FLUXUS", "X", "0"⟩
        = some (50, 0, 50)
    ∧ (50 : ℚ) ≠ 0 :=
  ⟨by decide, by with_unfolding_all decide, by norm_num⟩

/-- C1, amended: a ledger row with the ambiguous affiliation field
splitting into the two tokens UMAG and FLUXUS is not excluded — its
deduction is computed as `min` of the revenue summed over all of its
affiliations and the available balance (src 727, 750..763). -/
theorem C1_ambiguous_rows_still_deducted
    (prevRemain sumU sumFS sumFY : String → ℚ) (r : CostRow)
    (hart : ¬(clean_artist_name r.artist = "" ∨ clean_artist_name r.artist = "합계"
        ∨ clean_artist_name r.artist = "총계"))
    (haff : affilsOf r.sosok = ["UMAG", "FLUXUS"]) :
    deductionRow prevRemain sumU sumFS sumFY r =
      some (prevRemain (clean_artist_name r.artist), parseCell r.curr,
        min (sumU (clean_artist_name r.artist) +
              (sumFS (clean_artist_name r.artist) + sumFY (clean_artist_name r.artist)))
            (prevRemain (clean_artist_name r.artist) + parseCell r.curr)) := by
  simp only [deductionRow, szTotalRevenue, haff, if_neg hart, List.foldl_cons, List.foldl_nil]
  rw [if_neg (by decide : ¬("FLUXUS" : String) = "UMAG")]
  norm_num

/-- C1, witness for the amended statement. -/
theorem C1_ambiguous_rows_still_deducted_witness :
    deductionRow (fun _ => 50) (fun _ => 100) (fun _ => 0) (fun _ => 0)
        ⟨"UMAG,FLUXUS", "X", "0"⟩ = some (50, 0, 50) := by
  have h := C1_ambiguous_rows_still_deducted (fun _ => 50) (fun _ => 100) (fun _ => 0)
    (fun _ => 0) ⟨"UMAG,FLUXUS", "X", "0"⟩ (by decide) (by decide)
  rw [h]
  with_unfolding_all decide

/-- C2, counterexample.  A revenue cell can parse to a negative amount, in
which case the computed deduction `min(revenue, available)` is negative:
with a single UMAG revenue row of −100 and zero balances the deduction is
−100, contradicting `0 ≤ deduction`. -/
theorem C2_counterexample :
    deductionRow (prevRemainDict []) (sum_umag_dict [⟨"X", "-100"⟩])
        (sum_flux_song_dict [] "X") (sum_flux_yt_dict [] "X") ⟨"UMAG", "X", "0"⟩
        = some (0, 0, -100)
    ∧ ¬(0 ≤ (-100 : ℚ)) :=
  ⟨by with_unfolding_all decide, by norm_num⟩

/-- C2, amended: for every processed ledger row the deduction equals
`min(revenue, priorBalance + currentAccrual)`, and the bounds
`0 ≤ deduction ≤ min(revenue, priorBalance + currentAccrual)` hold
whenever the summed revenue and the available balance are non-negative
(cells parsing to negative amounts can make the deduction negative). -/
theorem C2_deduction_formula_and_bounds
    (prevRemain sumU sumFS sumFY : String → ℚ) (r : CostRow) (p c d : ℚ)
    (h : deductionRow prevRemain sumU sumFS sumFY r = some (p, c, d)) :
    d = min (szTotalRevenue sumU sumFS sumFY r) (p + c)
    ∧ (0 ≤ szTotalRevenue sumU sumFS sumFY r → 0 ≤ p + c →
        0 ≤ d ∧ d ≤ szTotalRevenue sumU sumFS sumFY r ∧ d ≤ p + c) := by
  rw [deductionRow] at h
  split at h
  · exact absurd h (by simp)
  · simp only [Option.some.injEq, Prod.mk.injEq] at h
    obtain ⟨hp, hc, hd⟩ := h
    subst hp; subst hc; subst hd
    refine ⟨rfl, fun hrev havail => ?_⟩
    exact ⟨le_min hrev havail, min_le_left _ _, min_le_right _ _⟩

/-- C2, witness for the amended statement (spec scenario A scaled by
10⁴: prior balance 100, revenue 150, deduction 100). -/
theorem C2_deduction_formula_and_bounds_witness :
    0 ≤ (100 : ℚ) ∧ (100 : ℚ) ≤ 150 ∧ (100 : ℚ) ≤ 100 + 0 := by
  have h := (C2_deduction_formula_and_bounds (fun _ => 100) (fun _ => 150)
      (fun _ => 0) (fun _ => 0) ⟨"UMAG", "Han", "0"⟩ 100 0 100
      (by with_unfolding_all decide)).2 (by with_unfolding_all decide)
      (by with_unfolding_all decide)
  have e : szTotalRevenue (fun _ => (150 : ℚ)) (fun _ => 0) (fun _ => 0)
      ⟨"UMAG", "Han", "0"⟩ = 150 := by with_unfolding_all decide
  have hc : parseCell "0" = 0 := by decide
  exact ⟨h.1, by rw [← e]; exact h.2.1, by rw [← hc] at h ⊢; exact h.2.2⟩

/-- C3: the FLUXUS settlement branch computes the net amount from the
stale UMAG revenue sum.  Concrete run: artist KimU (UMAG, revenue 300) is
processed first, then artist LeeF (FLUXUS, yt revenue 100, deduction 20,
rate 50%).  The code writes `final = (300 − 20) × 50% = 140` for LeeF
while its own report displays post-deduction revenue 80 and the specified
formula gives `(100 − 20) × 50% = 40`. -/
theorem C3_fluxus_settlement_uses_stale_sum :
    runReports
        [⟨"KimU", ["UMAG"], 0, 0, 100, [300], [], []⟩,
         ⟨"LeeF", ["FLUXUS"], 20, 0, 50, [], [], [100]⟩] =
      some [⟨"UMAG", "KimU", 300, 300⟩, ⟨"FLUXUS", "LeeF", 140, 80⟩]
    ∧ ((100 : ℚ) - 20) * (50 / 100) = 40
    ∧ (140 : ℚ) ≠ 40 :=
  ⟨by with_unfolding_all decide, by norm_num, by norm_num⟩

/-- C4, counterexample.  The rollover writes the carried balance into the
hard-coded column F (index 5) although it looks the 전월 잔액 column up by
name: on a tab laid out the way `section_zero` writes it (전월 잔액 at
index 4), artist X has remaining balance 100 in period P, yet after the
rollover the prior-balance cell of X's row still holds the stale string
"30" while the written 100 landed in column index 5. -/
theorem C4_counterexample :
    findIdxName rolloverHeaderA "전월 잔액" = some 4
    ∧ (update_next_month_tab rolloverDataA).map
        (fun g => ((g.getD 1 []).getD 4 (Cell.num 0), (g.getD 1 []).getD 5 (Cell.num 0)))
      = some (Cell.str "30", Cell.num 100)
    ∧ parseCell ((rolloverDataA.getD 1 []).getD 7 "") = 100
    ∧ Cell.str "30" ≠ Cell.num 100 :=
  ⟨by decide, by with_unfolding_all decide, by decide, by decide⟩

/-- C4, amended: the rollover writes, positionally into column index 5 of
every content row, the artist's period-P remaining balance — the last
matching non-summary row's parsed 당월 잔액, or 0 when the artist is
absent from period P.  The written column is the prior-balance column
exactly when the header locates 전월 잔액 at index 5 (column F), which
the code assumes but never checks. -/
theorem C4_rollover_prior_from_remaining
    (header : List String) (body : List (List String)) (g : List (List Cell)) (ia ir : ℕ)
    (hia : findIdxName header "아티스트명" = some ia)
    (hir : findIdxName header "당월 잔액" = some ir)
    (hprev : findIdxName header "전월 잔액" = some 5)
    (hded : findIdxName header "당월 차감액" = some 6)
    (hrun : update_next_month_tab (header :: body) = some g) :
    (∀ i row, body[i]? = some row → i < body.dropLast.length →
      g[i + 1]? = some (row.mapIdx (fun ci cell =>
        if ci = 5 then
          Cell.num (rolloverPrevDict body ia ir (pyStripStr (row.getD ia "")))
        else if ci = 6 then Cell.num 0
        else Cell.str cell)))
    ∧ (∀ x, (∀ row ∈ body, rollMatch ia x row = false) →
        rolloverPrevDict body ia ir x = 0)
    ∧ (∀ x pre row₀ post, body = pre ++ row₀ :: post → rollMatch ia x row₀ = true →
        (∀ row ∈ post, rollMatch ia x row = false) →
        rolloverPrevDict body ia ir x = parseCell (row₀.getD ir "")) := by
  have hspec := update_next_month_tab_spec header body g ia ir hia hir ⟨5, hprev⟩ ⟨6, hded⟩ hrun
  refine ⟨?_, fun x h => rolloverPrevDict_absent body ia ir x h,
    fun x pre row₀ post hb hm hpost => by
      rw [hb]; exact rolloverPrevDict_last_match ia ir x pre post row₀ hm hpost⟩
  intro i row hrow hi
  rw [hspec, List.getElem?_mapIdx, List.getElem?_cons_succ, hrow, Option.map_some']
  congr 1
  apply mapIdx_congr
  intro ci cell
  have h1 : 1 ≤ i + 1 := by omega
  have h2 : i + 1 ≤ body.length - 1 := by
    have h3 : i < body.length - 1 := by simpa [List.length_dropLast] using hi
    omega
  simp [h1, h2]

/-- C4, witness for the amended statement: on the layout-B fixture the
carried balance of artist Y equals period P's parsed 당월 잔액. -/
theorem C4_rollover_prior_from_remaining_witness :
    rolloverPrevDict [rolloverRowY, rolloverTotalRow] 2 7 "Y"
      = parseCell (rolloverRowY.getD 7 "") :=
  (C4_rollover_prior_from_remaining rolloverHeaderB [rolloverRowY, rolloverTotalRow]
      rolloverOutB 2 7 (by decide) (by decide) (by decide) (by decide)
      (Option.some_get (by decide)).symm).2.2 "Y" [] rolloverRowY [rolloverTotalRow] rfl
    (by decide) (by decide)

/-- C5, counterexample.  On the layout the rollover's own comments assume
(당월 발생액 at index 4, 전월 잔액 at 5, 당월 차감액 at 6), the
current-accrual cell of artist Y's row keeps its old value "7" — it is
not reset to 0 — while the deduction cell, which the claim says is left
untouched, is overwritten from "5" to 0. -/
theorem C5_counterexample :
    findIdxName rolloverHeaderB "당월 발생액" = some 4
    ∧ findIdxName rolloverHeaderB "당월 차감액" = some 6
    ∧ (update_next_month_tab rolloverDataB).map
        (fun g => ((g.getD 1 []).getD 4 (Cell.num 0), (g.getD 1 []).getD 6 (Cell.num 0)))
      = some (Cell.str "7", Cell.num 0)
    ∧ (rolloverDataB.getD 1 []).getD 6 "" = "5"
    ∧ Cell.str "7" ≠ Cell.num 0
    ∧ Cell.num 0 ≠ Cell.str "5" :=
  ⟨by decide, by decide, by with_unfolding_all decide, by decide, by decide, by decide⟩

/-- C5, amended: the rollover overwrites exactly columns F and G (indices
5 and 6) of the content rows — the prior-balance column (set from period
P) and the deduction column (reset to 0), per the header positions the
code assumes — and leaves every other cell, in particular the
current-accrual column and any derived remaining-balance column, with its
original string untouched. -/
theorem C5_rollover_frame
    (header : List String) (body : List (List String)) (g : List (List Cell)) (ia ir : ℕ)
    (hia : findIdxName header "아티스트명" = some ia)
    (hir : findIdxName header "당월 잔액" = some ir)
    (hprev : findIdxName header "전월 잔액" = some 5)
    (hded : findIdxName header "당월 차감액" = some 6)
    (hrun : update_next_month_tab (header :: body) = some g) :
    (∀ i row ci cell, (header :: body)[i]? = some row → row[ci]? = some cell →
        (i = 0 ∨ body.dropLast.length < i ∨ (ci ≠ 5 ∧ ci ≠ 6)) →
        g[i]?.map (fun grow => grow[ci]?) = some (some (Cell.str cell)))
    ∧ (∀ i row, body[i]? = some row → i < body.dropLast.length →
        g[i + 1]?.map (fun grow => grow[6]?)
          = some (row[6]?.map (fun _ => Cell.num 0))) := by
  have hspec := update_next_month_tab_spec header body g ia ir hia hir ⟨5, hprev⟩ ⟨6, hded⟩ hrun
  constructor
  · intro i row ci cell hrow hcell hcond
    rw [hspec, List.getElem?_mapIdx, hrow, Option.map_some', Option.map_some']
    have hc5 : ¬(1 ≤ i ∧ i ≤ body.dropLast.length ∧ ci = 5) := by
      rcases hcond with rfl | h | ⟨h5, h6⟩ <;> omega
    have hc6 : ¬(1 ≤ i ∧ i ≤ body.dropLast.length ∧ ci = 6) := by
      rcases hcond with rfl | h | ⟨h5, h6⟩ <;> omega
    rw [List.getElem?_mapIdx, hcell, Option.map_some', if_neg hc5, if_neg hc6]
  · intro i row hrow hi
    rw [hspec, List.getElem?_mapIdx, List.getElem?_cons_succ, hrow, Option.map_some',
      Option.map_some', List.getElem?_mapIdx]
    have h1 : 1 ≤ i + 1 := by omega
    have h2 : i + 1 ≤ body.length - 1 := by
      have h3 : i < body.length - 1 := by simpa [List.length_dropLast] using hi
      omega
    cases hcell : row[6]? with
    | none => rfl
    | some cell => simp [h1, h2]

/-- C5, witness for the amended statement: on the layout-B fixture the
당월 잔액 cell of artist Y's row is untouched by the rollover. -/
theorem C5_rollover_frame_witness :
    rolloverOutB[1]?.map (fun grow => grow[7]?) = some (some (Cell.str "100")) :=
  (C5_rollover_frame rolloverHeaderB [rolloverRowY, rolloverTotalRow] rolloverOutB 2 7
      (by decide) (by decide) (by decide) (by decide)
      (Option.some_get (by decide)).symm).1
    1 rolloverRowY 7 "100" (by decide) (by decide) (Or.inr (Or.inr ⟨by omega, by omega⟩))

/-- C6, counterexample.  In the report-generation aggregation the
fluxus_song running total has no summary-marker filter: a row with artist
field 총계 and amount 100 contributes its amount (the total over the
two-row table is 150, against 50 without that row), even though
`is_summary_row` classifies the key as a summary marker. -/
theorem C6_counterexample :
    is_summary_row (clean_artist_name "총계") = true
    ∧ gr_flux_song_total [⟨"총계", "100"⟩, ⟨"X", "50"⟩] = 150
    ∧ gr_flux_song_total [⟨"X", "50"⟩] = 50
    ∧ (150 : ℚ) ≠ 50 :=
  ⟨by decide, by with_unfolding_all decide, by with_unfolding_all decide, by norm_num⟩

/-- C6, amended: in the deduction pipeline (`section_zero`), where the
summary-row pre-filter is applied, a row whose cleaned artist key is
empty or a reserved aggregate marker contributes nothing to any of the
three per-artist source totals. -/
theorem C6_summary_rows_skipped_in_deduction_pipeline
    (rows₁ rows₂ : List RevRow) (r : RevRow)
    (h : is_summary_row (clean_artist_name r.artist) = true) :
    (∀ a, sum_umag_dict (rows₁ ++ r :: rows₂) a = sum_umag_dict (rows₁ ++ rows₂) a)
    ∧ (∀ aU a, sum_flux_song_dict (rows₁ ++ r :: rows₂) aU a
        = sum_flux_song_dict (rows₁ ++ rows₂) aU a)
    ∧ (∀ aU a, sum_flux_yt_dict (rows₁ ++ r :: rows₂) aU a
        = sum_flux_yt_dict (rows₁ ++ rows₂) aU a) := by
  have key : szPrefilter (rows₁ ++ r :: rows₂) = szPrefilter (rows₁ ++ rows₂) := by
    rw [szPrefilter_append, szPrefilter_cons_summary r rows₂ h, szPrefilter_append]
  refine ⟨fun a => ?_, fun aU a => ?_, fun aU a => ?_⟩
  · rw [sum_umag_dict, sum_umag_dict, key]
  · rw [sum_flux_song_dict, sum_flux_song_dict, key]
  · rw [sum_flux_yt_dict, sum_flux_yt_dict, key]

/-- C6, witness for the amended statement: a 총계 row with amount 100
leaves the UMAG total of artist X at 50. -/
theorem C6_summary_rows_skipped_witness :
    sum_umag_dict [⟨"총계", "100"⟩, ⟨"X", "50"⟩] "X" = sum_umag_dict [⟨"X", "50"⟩] "X" :=
  (C6_summary_rows_skipped_in_deduction_pipeline [] [⟨"X", "50"⟩] ⟨"총계", "100"⟩
    (by decide)).1 "X"

/-- C7, counterexample.  The engine has no numeric reader that both
strips percent signs and recovers unparsable cells as 0.0:
`to_num` (report generation) raises — modelled `none` — on the non-empty
unparsable cell `"abc"` instead of yielding 0.0, and the inline reader of
the deduction pipeline parses `"50%"` to 0.0 rather than stripping the
percent sign (`to_num` on the same cell gives 50). -/
theorem C7_counterexample :
    to_num "abc" = none
    ∧ parseCell "50%" = 0
    ∧ to_num "50%" = some 50
    ∧ (0 : ℚ) ≠ 50 :=
  ⟨by decide, by decide, by decide, by norm_num⟩

/-- C7, amended: numeric parsing is split between two regimes.  Both map
the empty cell to 0.0 and strip thousands separators; the inline readers
recover every failure silently as 0.0 but do not strip percent signs,
while `to_num` also strips percent signs but propagates an error on a
non-empty unparsable cell. -/
theorem C7_two_parsing_regimes (s : String) :
    (s = "" → to_num s = some 0 ∧ parseCell s = 0)
    ∧ (to_num s = none → s ≠ ""
        ∧ parseFloatQ? (stripAllChar ',' (stripAllChar '%' s)) = none)
    ∧ (parseFloatQ? (stripAllChar ',' s) = none → parseCell s = 0)
    ∧ (∀ q, parseFloatQ? (stripAllChar ',' s) = some q → parseCell s = q) := by
  refine ⟨?_, ?_, ?_, ?_⟩
  · rintro rfl
    exact ⟨by decide, by decide⟩
  · intro h
    rw [to_num] at h
    split at h
    · exact absurd h (by simp)
    · exact ⟨by assumption, h⟩
  · intro h
    rw [parseCell, h]
    rfl
  · intro q h
    rw [parseCell, h]
    rfl

/-- C7, witness. -/
theorem C7_two_parsing_regimes_witness :
    "abc" ≠ "" ∧ parseFloatQ? (stripAllChar ',' (stripAllChar '%' "abc")) = none :=
  (C7_two_parsing_regimes "abc").2.1 (by decide)

/-- C8, counterexample.  The artist-name normalizer is not idempotent:
on the input A, ZERO WIDTH JOINER, COMBINING GRAVE the first pass removes
the format character (category Cf) and leaves the decomposed pair
A + U+0300, which the NFKC step of the second pass composes to À. -/
theorem C8_counterexample :
    clean_artist_name (clean_artist_name "A\u200D\u0300")
      ≠ clean_artist_name "A\u200D\u0300" := by decide

/-- C8, amended: the normalizer is idempotent on every string whose
cleaned form is a fixed point of NFKC normalization — removing
control-category characters can break the normal form, and only that NFKC
re-normalization step of a second pass can change the result. -/
theorem C8_idempotent_when_nfkc_fixed (s : String)
    (h : nfkcModel (clean_artist_name s).data = (clean_artist_name s).data) :
    clean_artist_name (clean_artist_name s) = clean_artist_name s := by
  have key : cleanChars (cleanChars s.data) = cleanChars s.data := by
    have hmem := cleanChars_mem s.data
    have hn : nfkcModel (cleanChars s.data) = cleanChars s.data := h
    by_cases hc : (cleanChars s.data).isEmpty = true
    · rw [List.isEmpty_iff] at hc
      rw [hc]
      rfl
    · rw [cleanChars, if_neg hc, hn]
      have h1 : (cleanChars s.data).filter (fun c => !isCatC c) = cleanChars s.data :=
        List.filter_eq_self.mpr (fun ch hm => by simp [(hmem ch hm).1])
      rw [h1]
      have h2 : (cleanChars s.data).map (fun c => if isCatZ c then ' ' else c)
          = cleanChars s.data := by
        apply map_id_of
        intro ch hm
        by_cases hz : isCatZ ch = true
        · rw [if_pos hz, (hmem ch hm).2 hz]
        · rw [if_neg hz]
      rw [h2]
      have h3 : (cleanChars s.data).map
          (fun c => if c.val == 0xA0 || c.val == 0x3000 then ' ' else c)
          = cleanChars s.data := by
        apply map_id_of
        intro ch hm
        have hA : ¬((ch.val == 0xA0 || ch.val == 0x3000) = true) := by
          intro hA
          have hz : isCatZ ch = true := by
            rw [Bool.or_eq_true] at hA
            rw [isCatZ]
            rcases hA with hA | hA <;> simp [hA]
          have hsp := (hmem ch hm).2 hz
          rw [hsp] at hA
          exact absurd hA (by decide)
        rw [if_neg hA]
      rw [h3]
      exact cleanChars_pyStrip_fixed s.data
  exact congrArg (fun l => (⟨l⟩ : String)) key

/-- C8, witness for the amended statement. -/
theorem C8_idempotent_when_nfkc_fixed_witness :
    clean_artist_name (clean_artist_name " Lee　") = clean_artist_name " Lee　" :=
  C8_idempotent_when_nfkc_fixed " Lee　" (by decide)

/-- C9: the missing-row scan of every revenue source partitions the
post-filter data rows — the processed count plus the number of reported
unmatched rows equals the row count — and every reported row carries its
raw text, its normalized key and the reason string. -/
theorem C9_reconciliation_complete (ledger : List CostRow) (tag reason : String)
    (rows : List RevRow) :
    (missingScan (artistsWithAffil ledger tag) reason rows).1
        + (missingScan (artistsWithAffil ledger tag) reason rows).2.length = rows.length
    ∧ ∀ m ∈ (missingScan (artistsWithAffil ledger tag) reason rows).2,
        m.cleanedArtist = clean_artist_name m.rawArtist ∧ m.reason = reason :=
  missingScanAux_spec (artistsWithAffil ledger tag) reason rows 0

/-- C10: duplicating a period tab never overwrites an existing sheet.
The chosen title is absent from the pre-existing titles; it is the
requested title when that is free and otherwise a suffixed
`"base (k)"` with `k ≥ 2`; every pre-existing sheet survives (a re-run
adds a new suffixed tab instead of replacing the prior one). -/
theorem C10_duplicate_never_overwrites (titles : List String) (base : String) :
    duplicate_new_name titles base ∉ titles
    ∧ (base ∉ titles → duplicate_new_name titles base = base)
    ∧ (base ∈ titles → ∃ k, 2 ≤ k ∧ duplicate_new_name titles base = candTitle base k)
    ∧ ∀ t ∈ titles, t ∈ titles ++ [duplicate_new_name titles base] := by
  refine ⟨?_, ?_, ?_, fun t ht => List.mem_append_left _ ht⟩
  · rw [duplicate_new_name]
    split
    · apply freshAux_not_mem
      obtain ⟨j, hj, hfree⟩ := exists_fresh_title titles base 2
      exact ⟨j, hj, hfree⟩
    · next h => exact h
  · intro h
    rw [duplicate_new_name, if_neg h]
  · intro h
    rw [duplicate_new_name, if_pos h]
    obtain ⟨j, hshape⟩ := freshAux_shape titles base (titles.length + 1) 2
    exact ⟨2 + j, by omega, hshape⟩

end RevenueReport
